import Mathlib

/-!
Verification of the real-time chess server (`new-chess-game`).

The definitions below are a shallow embedding of the Python sources:
`server/ServerGame.py`, `server/Piece.py`, `server/improved_game_server.py`,
`server/game_server_api.py` and `KFC_Py/move_log.py`.  The modules `State`,
`Physics`, `Command`, `Board` and `GameFactory` are imported by those files but
are not part of the repository; where their behaviour matters it is modelled
from the specification and marked as such in the doc comment.
-/

namespace KFC

/-- A board cell, `(row, col)`. -/
abbrev Cell := Int × Int

/-- Modelled from the spec: the `Physics` sub-object owned by a piece state
(the `Physics` module is imported by the source but missing from the
repository).  It carries the state-start-timestamp (`get_start_ms`) and the
current cell (`get_curr_cell`), per §3 "PieceState". -/
structure Physics where
  start_ms : Int
  curr_cell : Cell
deriving Repr, DecidableEq

/-- Modelled from the spec: a piece state (the `State` module is missing from
the repository): a tag (`name`, e.g. `"idle"`), its `Physics`, and the
`can_be_captured` predicate, per §3 "PieceState". -/
structure PieceState where
  name : List Char
  physics : Physics
  can_be_captured : Bool
deriving Repr, DecidableEq

/-- `Piece` from `server/Piece.py`: an id (first char = type, second char =
color) and the current state.  `last_cell` embeds `_last_cell`. -/
structure Piece where
  id : List Char
  state : PieceState
  last_cell : Cell
deriving Repr, DecidableEq

/-- `Piece.current_cell`: the piece's board cell, read off its physics. -/
def Piece.current_cell (p : Piece) : Cell :=
  p.state.physics.curr_cell

/-- The sort key used by `_determine_collision_winner`:
`p.state.physics.get_start_ms()`. -/
def startKey (p : Piece) : Int :=
  p.state.physics.start_ms

/-- The state tag `'idle'`. -/
def idleName : List Char := ['i', 'd', 'l', 'e']

/-- The non-idle test of `_determine_collision_winner`:
`p.state.name != 'idle'`. -/
def nonIdle (p : Piece) : Bool :=
  decide (p.state.name ≠ idleName)

/-- Python `max(key=f)` starting from a current best: the running best is
replaced only when a strictly larger key appears, so the first maximum wins. -/
def pyMaxFrom (f : Piece → Int) (best : Piece) : List Piece → Piece
  | [] => best
  | p :: rest => pyMaxFrom f (if f best < f p then p else best) rest

/-- Python `max(lst, key=f)`: `none` on the empty list (Python raises). -/
def pyMax (f : Piece → Int) : List Piece → Option Piece
  | [] => none
  | p :: rest => some (pyMaxFrom f p rest)

/-- `ServerGame._determine_collision_winner`: prefer the non-idle pieces;
take the maximum of `get_start_ms` over them, else over the whole group. -/
def determine_collision_winner (pieces_at_cell : List Piece) : Option Piece :=
  let moving := pieces_at_cell.filter nonIdle
  match pyMax startKey moving with
  | some w => some w
  | none => pyMax startKey pieces_at_cell

/-- The color character of a piece, `p.id[1]` in the source (string-prefix
convention: second character is the color). -/
def colorChar (p : Piece) : Option Char :=
  p.id.get? 1

/-- The payload of a `PIECE_CAPTURED` event: `{"victim": p, "winner": winner}`. -/
structure CaptureEvent where
  victim : Piece
  winner : Piece
deriving Repr, DecidableEq

/-- One cell's pass of `ServerGame._resolve_collisions`: given the group of
pieces at one cell, return the pieces of that group that stay in the active
list and the capture events published, in group order.  A group of fewer than
two pieces is skipped (`continue`).  A non-winner survives when it has the
winner's color or its `can_be_captured` predicate is false. -/
def resolve_cell (group : List Piece) : List Piece × List CaptureEvent :=
  if group.length < 2 then (group, [])
  else
    match determine_collision_winner group with
    | none => (group, [])
    | some w =>
      (group.filter (fun p =>
          decide (p = w ∨ colorChar w = colorChar p ∨ p.state.can_be_captured = false)),
       group.filterMap (fun p =>
          if p ≠ w ∧ colorChar w ≠ colorChar p ∧ p.state.can_be_captured = true
          then some ⟨p, w⟩ else none))

/-- True when a piece id starts with `"KW"` or `"KB"`
(`p.id.startswith(('KW', 'KB'))` in `is_game_over`). -/
def isKingId (id : List Char) : Bool :=
  decide (id.take 2 = ['K', 'W']) || decide (id.take 2 = ['K', 'B'])

/-- The part of a `ServerGame` the session-level claims read and write: the
active piece list and the `piece_by_id` map built in `__init__` (an
association list in insertion order). -/
structure GameState where
  pieces : List Piece
  piece_by_id : List (List Char × Piece)
deriving Repr, DecidableEq

/-- `ServerGame.is_game_over`: fewer than two kings remain among the active
pieces. -/
def is_game_over (g : GameState) : Bool :=
  decide ((g.pieces.filter (fun p => isKingId p.id)).length < 2)

/-- The `status` field built by `ChessGameServer.get_game_state`
(`game_server_api.py`): `"finished"` when the game reports game-over, else
`"active"` with two players, else `"waiting"`. -/
def sessionStatus (g : GameState) (numPlayers : Nat) : String :=
  if is_game_over g then "finished"
  else if numPlayers = 2 then "active" else "waiting"

/-- A command parameter: the source stores either a tag string (`"move"`) or a
cell in `params`. -/
inductive Param where
  | str (s : List Char)
  | cell (c : Cell)
deriving Repr, DecidableEq

/-- Modelled from the spec: `Command` (§3, the `Command` module is missing from
the repository): timestamp, target-piece-id, kind, and the parameter list. -/
structure Command where
  timestamp : Int
  piece_id : List Char
  kind : List Char
  params : List Param
deriving Repr, DecidableEq

/-- Events published on the message bus, as far as the claims track them:
`PIECE_MOVED` published by `process_move_command` (piece id and target),
`PIECE_MOVED` published by `Piece.update` (from/to cells), and
`PIECE_CAPTURED`. -/
inductive Event where
  | piece_moved_cmd (piece_id : List Char) (target : Param)
  | piece_moved (piece_id : List Char) (fromCell toCell : Cell)
  | piece_captured (victim winner : Piece)
deriving Repr, DecidableEq

/-- Dictionary lookup on the `piece_by_id` association list. -/
def lookupPiece (m : List (List Char × Piece)) (pid : List Char) : Option Piece :=
  (m.find? (fun kv => decide (kv.1 = pid))).map Prod.snd

/-- Mutation of the piece object shared between `pieces` and `piece_by_id`:
`Piece.on_command` assigns `self.state` and, when the current cell changed,
`self._last_cell`; the same object sits in both containers, so both views
change. -/
def setPieceState (g : GameState) (pid : List Char) (st : PieceState) : GameState :=
  let upd := fun (p : Piece) =>
    if p.id = pid then
      { p with state := st,
               last_cell := if p.current_cell ≠ st.physics.curr_cell
                            then st.physics.curr_cell else p.last_cell }
    else p
  { pieces := g.pieces.map upd,
    piece_by_id := g.piece_by_id.map (fun kv => (kv.1, upd kv.2)) }

/-- `ServerGame.process_move_command`: look the piece up in `piece_by_id`
(unknown ids fail with a logged warning), build a move `Command`, and run the
piece's `on_command` inside try/except; `onCmd` stands for the external
`State.on_command` transition, with `none` modelling a raised exception, which
is caught and turned into `False`.  On success a `PIECE_MOVED` event is
published. -/
def process_move_command (onCmd : Piece → Command → Option PieceState)
    (g : GameState) (now : Int) (pid : List Char) (target : Param) :
    Bool × GameState × List Event :=
  match lookupPiece g.piece_by_id pid with
  | none => (false, g, [])
  | some piece =>
    let cmd : Command :=
      { timestamp := now, piece_id := pid, kind := ['m', 'o', 'v', 'e'],
        params := [Param.str ['m', 'o', 'v', 'e'], target] }
    match onCmd piece cmd with
    | none => (false, g, [])
    | some st =>
      (true, setPieceState g pid st, [Event.piece_moved_cmd pid target])

/-- `ServerGame._process_input`: commands with fewer than two parameters are
dropped with a logged warning; otherwise `params[1]` is the target cell passed
to `process_move_command`. -/
def process_input (onCmd : Piece → Command → Option PieceState)
    (g : GameState) (now : Int) (cmd : Command) : Bool × GameState × List Event :=
  if h : cmd.params.length < 2 then (false, g, [])
  else process_move_command onCmd g now cmd.piece_id (cmd.params.get ⟨1, by omega⟩)

/-- `Piece.update`: run the state's `update(now_ms)` (the external `State`
module, abstracted as `stepState`), publish a `PIECE_MOVED` event carrying the
pre-update and post-update cells exactly when the cell changed, and store the
new cell in `_last_cell`. -/
def Piece.update (stepState : PieceState → Int → PieceState) (p : Piece)
    (now_ms : Int) : Piece × List Event :=
  let prev_cell := p.current_cell
  let st := stepState p.state now_ms
  let new_cell := st.physics.curr_cell
  ({ p with state := st, last_cell := new_cell },
   if prev_cell ≠ new_cell then [Event.piece_moved p.id prev_cell new_cell] else [])

/-- Error codes surfaced to clients (`protocol.py`, `ErrorCodes`), as far as
the claims need them. -/
inductive ErrorCode where
  | invalid_move
  | game_full
deriving Repr, DecidableEq

/-- The color character a player may move (`'W'` for white, `'B'` otherwise),
from `validate_move`. -/
def expectedChar (player_color : String) : Char :=
  if player_color = "white" then 'W' else 'B'

/-- `ChessGameServer.validate_move`: a piece id shorter than two characters is
rejected, and the second character must match the player's color. -/
def validate_move (piece_id : List Char) (player_color : String) : Bool :=
  if piece_id.length < 2 then false
  else decide (piece_id.get? 1 = some (expectedChar player_color))

/-- The move `Command` built by `handle_player_move`: `Command(piece_id)` with
`params = [from_pos, to_pos]` (the `Command` constructor is part of the
missing `Command` module; per the spec §3 the command carries the target
piece id and the parameter list, and `_process_input` reads only those two
fields). -/
def mkMoveCommand (piece_id : List Char) (from_pos to_pos : Cell) : Command :=
  { timestamp := 0, piece_id := piece_id, kind := [],
    params := [Param.cell from_pos, Param.cell to_pos] }

/-- The session-visible core of `ChessGameServer.handle_player_move`, once the
sender's game and color are resolved: validate the piece's color against the
player's, run `_process_input` on the game, and reply `INVALID_MOVE` when the
validation or the engine rejects; on success no error is sent.  The returned
triple is (game state after the call, error reply, whether the move was
accepted and broadcast). -/
def handle_player_move (onCmd : Piece → Command → Option PieceState)
    (g : GameState) (player_color : String)
    (piece_id : List Char) (from_pos to_pos : Cell) :
    GameState × Option ErrorCode × Bool :=
  if validate_move piece_id player_color = false then
    (g, some ErrorCode.invalid_move, false)
  else
    let res := process_input onCmd g 0 (mkMoveCommand piece_id from_pos to_pos)
    if res.1 then (res.2.1, none, true)
    else (res.2.1, some ErrorCode.invalid_move, false)

/-- `MAX_ROWS` from `KFC_Py/move_log.py`: at most this many recent moves are
kept per player. -/
def MAX_ROWS : Nat := 8

/-- One recorded row of the move log: wall-clock string and piece id. -/
structure MoveRow where
  time : List Char
  piece_id : List Char
deriving Repr, DecidableEq

/-- `MoveLog.moves`: one list of rows per player. -/
structure MoveLog where
  white : List MoveRow
  black : List MoveRow
deriving Repr, DecidableEq

/-- The empty log built by `MoveLog.__init__`. -/
def MoveLog.init : MoveLog :=
  { white := [], black := [] }

/-- Python slice `l[-n:]`: the last `n` entries of `l` (all of `l` when it is
shorter). -/
def lastN (n : Nat) (l : List α) : List α :=
  (l.reverse.take n).reverse

/-- The attribution test of `MoveLog._record`: a row belongs to WHITE exactly
when the second character of its piece id is `'W'`. -/
def isWhiteRow (r : MoveRow) : Bool :=
  decide (r.piece_id.get? 1 = some 'W')

/-- `MoveLog._record`: append the row to the mover's list (WHITE when the
second character of the piece id is `'W'`, BLACK otherwise) and then truncate
both lists to their last `MAX_ROWS` rows. -/
def MoveLog.record (log : MoveLog) (row : MoveRow) : MoveLog :=
  if isWhiteRow row then
    { white := lastN MAX_ROWS (log.white ++ [row]),
      black := lastN MAX_ROWS log.black }
  else
    { white := lastN MAX_ROWS log.white,
      black := lastN MAX_ROWS (log.black ++ [row]) }

/-- A whole stream of `PIECE_MOVED` events recorded in arrival order. -/
def MoveLog.recordAll (log : MoveLog) (rows : List MoveRow) : MoveLog :=
  rows.foldl MoveLog.record log

/-- A player record in a game's `players` dict. -/
structure PlayerData where
  name : String
  color : String
  connected : Bool
deriving Repr, DecidableEq

/-- A game record in `ChessGameServer.games`: the `players` dict (an
association list in insertion order, keyed by player id) and the
`game_started` flag.  The `game` instance itself is opaque to the registry
claims. -/
structure GameData where
  players : List (Nat × PlayerData)
  game_started : Bool
deriving Repr, DecidableEq

/-- The `ChessGameServer` registry (`improved_game_server.py`): the `games`
dict in insertion order, `player_to_game`, the registered clients (one
websocket per player id), and the `next_game_id` counter.  The player-id
string `player_{len(clients)+1}_{timestamp}` is modelled by a fresh counter:
across the traces considered here a new id never collides with a live one. -/
structure ServerState where
  games : List (Nat × GameData)
  player_to_game : List (Nat × Nat)
  clients : List Nat
  next_game_id : Nat
  next_player_id : Nat
deriving Repr, DecidableEq

/-- Python `dict.get` on a `Nat`-keyed association list. -/
def lookupNat : List (Nat × α) → Nat → Option α
  | [], _ => none
  | kv :: rest, k => if kv.1 = k then some kv.2 else lookupNat rest k

/-- Python `d[k] = v` for a key already present: the value changes in place,
the insertion position does not. -/
def updateNat (m : List (Nat × α)) (k : Nat) (v : α) : List (Nat × α) :=
  m.map (fun kv => if kv.1 = k then (k, v) else kv)

/-- The empty registry built by `ChessGameServer.__init__`. -/
def serverInit : ServerState :=
  { games := [], player_to_game := [], clients := [], next_game_id := 1,
    next_player_id := 1 }

/-- The scan of `find_available_game` over the games dict. -/
def findAvail : List (Nat × GameData) → Option Nat
  | [] => none
  | g :: rest => if g.2.players.length < 2 then some g.1 else findAvail rest

/-- `find_available_game`: the first game with fewer than two players. -/
def find_available_game (s : ServerState) : Option Nat :=
  findAvail s.games

/-- `create_new_game`: append a fresh empty game under the next game id. -/
def create_new_game (s : ServerState) : ServerState × Nat :=
  ({ s with
      games := s.games ++ [(s.next_game_id, { players := [], game_started := false })],
      next_game_id := s.next_game_id + 1 },
   s.next_game_id)

/-- The fallback of the color choice in `handle_player_join`: white if free,
else black if free, else the game is full. -/
def fallback_color (existing : List String) : Option String :=
  if "white" ∉ existing then some "white"
  else if "black" ∉ existing then some "black"
  else none

/-- The color choice of `handle_player_join`: the preferred color when truthy
(present and non-empty) and not yet taken, else the fallback chain. -/
def choose_color (existing : List String) (preferred : Option String) :
    Option String :=
  match preferred with
  | some c => if c ≠ "" ∧ c ∉ existing then some c else fallback_color existing
  | none => fallback_color existing

/-- Outcome of a join as reported to the client: the assignment, or the
`GAME_FULL` error (after which the server closes the connection). -/
inductive JoinOutcome where
  | joined (game_id : Nat) (player_id : Nat) (color : String)
  | full
deriving Repr, DecidableEq

/-- The game record after a successful join: the player is appended, and
`start_game` flips `game_started` when the game just reached two players and
had not started (the game-instance factory `create_game` is an external
module, modelled from the spec as succeeding). -/
def joined_game_record (gdata : GameData) (pid : Nat) (n color : String) :
    GameData :=
  let players2 := gdata.players ++ [(pid, { name := n, color := color, connected := true })]
  { players := players2,
    game_started :=
      if players2.length = 2 ∧ gdata.game_started = false then true
      else gdata.game_started }

/-- The state mutation of a successful join: add the player to the chosen
game, register the client and the player→game entry, and run `start_game`
when the game just reached two players. -/
def join_to_game (s1 : ServerState) (gid : Nat) (gdata : GameData)
    (pid : Nat) (n color : String) : ServerState :=
  let gdata2 : GameData :=
    { gdata with players := gdata.players ++
        [(pid, { name := n, color := color, connected := true })] }
  let s2 : ServerState :=
    { s1 with games := updateNat s1.games gid gdata2,
              player_to_game := s1.player_to_game ++ [(pid, gid)],
              clients := s1.clients ++ [pid],
              next_player_id := s1.next_player_id + 1 }
  if gdata2.players.length = 2 ∧ gdata2.game_started = false then
    { s2 with games := updateNat s2.games gid { gdata2 with game_started := true } }
  else s2

/-- `handle_player_join`: pick the first game with a free seat (create one if
none), choose the color, and add the player; with both colors taken the join
is refused with `GAME_FULL` and no player is added. -/
def handle_player_join (s : ServerState) (n : String) (pc : Option String) :
    ServerState × JoinOutcome :=
  let pid := s.next_player_id
  let sg : ServerState × Nat :=
    match find_available_game s with
    | some gid => (s, gid)
    | none => create_new_game s
  match lookupNat sg.1.games sg.2 with
  | none => (sg.1, JoinOutcome.full)
  | some gdata =>
    match choose_color (gdata.players.map (fun kv => kv.2.color)) pc with
    | none => (sg.1, JoinOutcome.full)
    | some color =>
      (join_to_game sg.1 sg.2 gdata pid n color, JoinOutcome.joined sg.2 pid color)

/-- The player's record after `unregister_client` marks it disconnected. -/
def disconnect_in_game (gd : GameData) (pid : Nat) : GameData :=
  { gd with players := gd.players.map (fun kv =>
      if kv.1 = pid then (kv.1, { kv.2 with connected := false }) else kv) }

/-- `remove_game_if_empty`: delete the game only when its `players` dict is
empty. -/
def remove_game_if_empty (s : ServerState) (gid : Nat) : ServerState :=
  match lookupNat s.games gid with
  | none => s
  | some gd =>
    if gd.players.length = 0 then
      { s with games := s.games.filter (fun g => decide (g.1 ≠ gid)) }
    else s

/-- `unregister_client`: drop the client, mark the player's record in their
game disconnected, call `remove_game_if_empty` when no connected players
remain in that game, and clear the `player_to_game` entry. -/
def unregister_client (s : ServerState) (pid : Nat) : ServerState :=
  if pid ∈ s.clients then
    let s1 : ServerState := { s with clients := s.clients.erase pid }
    let s2 : ServerState :=
      match lookupNat s1.player_to_game pid with
      | none => s1
      | some gid =>
        match lookupNat s1.games gid with
        | none => s1
        | some gd =>
          if pid ∈ gd.players.map Prod.fst then
            let gd2 := disconnect_in_game gd pid
            let s1b : ServerState := { s1 with games := updateNat s1.games gid gd2 }
            if (gd2.players.filter (fun kv => kv.2.connected)).length = 0 then
              remove_game_if_empty s1b gid
            else s1b
          else s1
    { s2 with player_to_game :=
        s2.player_to_game.filter (fun kv => decide (kv.1 ≠ pid)) }
  else s

/-- The `status` field of `broadcast_game_state_to_game`: `"waiting"` with
fewer than two players, `"active"` once the game started, else `"ready"`. -/
def game_status (gd : GameData) : String :=
  if gd.players.length < 2 then "waiting"
  else if gd.game_started then "active"
  else "ready"

/-- The status a broadcast would report for one game id. -/
def statusOf (s : ServerState) (gid : Nat) : Option String :=
  (lookupNat s.games gid).map game_status

/-- The player count of one game. -/
def playersCount (s : ServerState) (gid : Nat) : Option Nat :=
  (lookupNat s.games gid).map (fun gd => gd.players.length)

/-- Registry-level events: a join or a disconnect (moves do not touch the
registry's player or game bookkeeping). -/
inductive SEvent where
  | join (n : String) (pc : Option String)
  | leave (pid : Nat)
deriving Repr, DecidableEq

/-- One registry transition. -/
def stepServer (s : ServerState) : SEvent → ServerState
  | SEvent.join n pc => (handle_player_join s n pc).1
  | SEvent.leave pid => unregister_client s pid

/-- A whole trace of registry events. -/
def applyEvents (s : ServerState) (es : List SEvent) : ServerState :=
  es.foldl stepServer s

/-- Join-only traces, for the matchmaker claims. -/
def applyJoins (s : ServerState) (reqs : List (String × Option String)) :
    ServerState :=
  reqs.foldl (fun st r => (handle_player_join st r.1 r.2).1) s

/-- Structural well-formedness of one game record: at most two players, no
duplicate colors, and a started game has exactly two players. -/
def GameWF (gd : GameData) : Prop :=
  gd.players.length ≤ 2 ∧
  (gd.players.map (fun kv => kv.2.color)).Nodup ∧
  (gd.game_started = true → gd.players.length = 2)

/-- Registry well-formedness: every game is well-formed, game ids stay below
the fresh-id counter, and keys are unique (a Python dict). -/
def ServerWF (s : ServerState) : Prop :=
  (∀ g ∈ s.games, GameWF g.2) ∧
  (∀ g ∈ s.games, g.1 < s.next_game_id) ∧
  (s.games.map Prod.fst).Nodup

/-- All colors of a game lie in {white, black}. -/
def GameColorsWB (gd : GameData) : Prop :=
  ∀ kv ∈ gd.players, kv.2.color = "white" ∨ kv.2.color = "black"

/-- A join request whose preferred color is absent, empty, or one of the two
legal colors. -/
def validPreferred (pc : Option String) : Prop :=
  pc = none ∨ pc = some "" ∨ pc = some "white" ∨ pc = some "black"

/-- A registry with one game holding one connected player: player 7 is the
only connected member of game 1. -/
def serverC6 : ServerState :=
  { games := [(1, { players := [(7, { name := "alice", color := "white",
                                      connected := true })],
                    game_started := false })],
    player_to_game := [(7, 1)], clients := [7], next_game_id := 2,
    next_player_id := 8 }

/-- A non-idle piece with start timestamp 100, used as a concrete input. -/
def pieceA : Piece :=
  { id := ['P', 'W', '3'],
    state := { name := ['m', 'o', 'v', 'e'],
               physics := { start_ms := 100, curr_cell := (3, 3) },
               can_be_captured := true },
    last_cell := (3, 3) }

/-- A non-idle piece with start timestamp 150, used as a concrete input. -/
def pieceB : Piece :=
  { id := ['P', 'B', '4'],
    state := { name := ['m', 'o', 'v', 'e'],
               physics := { start_ms := 150, curr_cell := (3, 3) },
               can_be_captured := true },
    last_cell := (3, 3) }

/-- A one-piece game used as a concrete input. -/
def gameState0 : GameState :=
  { pieces := [pieceA], piece_by_id := [(pieceA.id, pieceA)] }

/-- A command naming a piece id that is not in `gameState0`. -/
def cmdUnknown : Command :=
  { timestamp := 0, piece_id := ['Q', 'B', '9'], kind := ['m', 'o', 'v', 'e'],
    params := [Param.cell (0, 0), Param.cell (1, 1)] }

/-- A white move-log row used as a concrete input. -/
def rowW : MoveRow :=
  { time := [], piece_id := ['P', 'W', '1'] }

/-- A black move-log row used as a concrete input. -/
def rowB : MoveRow :=
  { time := [], piece_id := ['N', 'B', '2'] }

theorem process_move_command_false_unchanged
    (onCmd : Piece → Command → Option PieceState)
    (g : GameState) (now : Int) (pid : List Char) (target : Param)
    (h : (process_move_command onCmd g now pid target).1 = false) :
    process_move_command onCmd g now pid target = (false, g, []) := by
  rcases hl : lookupPiece g.piece_by_id pid with _ | piece
  · simp [process_move_command, hl]
  · rcases ho : onCmd piece
        (Command.mk now pid ['m', 'o', 'v', 'e'] [Param.str ['m', 'o', 'v', 'e'], target])
        with _ | st
    · simp [process_move_command, hl, ho]
    · rw [process_move_command, hl] at h
      simp only [ho] at h
      exact absurd h (by decide)

theorem process_input_false_unchanged
    (onCmd : Piece → Command → Option PieceState)
    (g : GameState) (now : Int) (cmd : Command)
    (h : (process_input onCmd g now cmd).1 = false) :
    process_input onCmd g now cmd = (false, g, []) := by
  by_cases hc : cmd.params.length < 2
  · rw [process_input, dif_pos hc]
  · rw [process_input, dif_neg hc] at h ⊢
    exact process_move_command_false_unchanged _ _ _ _ _ h

/-- C7: when the named piece's color character does not match the sending
player's color, or the game engine rejects the command, `handle_player_move`
replies with `INVALID_MOVE` and leaves the game state unchanged, for every
behaviour of the external state machine. -/
theorem handle_player_move_rejects
    (onCmd : Piece → Command → Option PieceState) (g : GameState)
    (player_color : String) (piece_id : List Char) (from_pos to_pos : Cell)
    (h : piece_id.get? 1 ≠ some (expectedChar player_color) ∨
         (process_input onCmd g 0 (mkMoveCommand piece_id from_pos to_pos)).1 = false) :
    handle_player_move onCmd g player_color piece_id from_pos to_pos =
      (g, some ErrorCode.invalid_move, false) := by
  by_cases hv : validate_move piece_id player_color = false
  · rw [handle_player_move, if_pos hv]
  · have hv2 : validate_move piece_id player_color = true := by
      cases hb : validate_move piece_id player_color
      · exact absurd hb hv
      · rfl
    have hcol : piece_id.get? 1 = some (expectedChar player_color) := by
      rw [validate_move] at hv2
      split at hv2
      · exact absurd hv2 (by decide)
      · exact of_decide_eq_true hv2
    rcases h with h | h
    · exact absurd hcol h
    · have hres := process_input_false_unchanged onCmd g 0
        (mkMoveCommand piece_id from_pos to_pos) h
      simp [handle_player_move, hv, hres]

theorem handle_player_move_rejects_witness :
    pieceB.id.get? 1 ≠ some (expectedChar "white") ∧
    handle_player_move (fun p _ => some p.state) gameState0 "white" pieceB.id
        (1, 3) (2, 3) =
      (gameState0, some ErrorCode.invalid_move, false) :=
  ⟨by decide,
   handle_player_move_rejects (fun p _ => some p.state) gameState0 "white"
     pieceB.id (1, 3) (2, 3) (Or.inl (by decide))⟩

/-- C9: one call of `Piece.update` publishes a `PIECE_MOVED` event carrying
the pre-update cell and the post-update cell exactly when those two cells
differ; when the cell is unchanged nothing is published; and the move event is
the only event `Piece.update` ever publishes. -/
theorem piece_update_event_iff (stepState : PieceState → Int → PieceState)
    (p : Piece) (now : Int) :
    ((Piece.update stepState p now).2 =
        [Event.piece_moved p.id p.current_cell
          ((Piece.update stepState p now).1.current_cell)] ↔
      p.current_cell ≠ (Piece.update stepState p now).1.current_cell) ∧
    ((Piece.update stepState p now).2 = [] ↔
      p.current_cell = (Piece.update stepState p now).1.current_cell) ∧
    (∀ e ∈ (Piece.update stepState p now).2,
      e = Event.piece_moved p.id p.current_cell
            ((Piece.update stepState p now).1.current_cell)) := by
  by_cases h : p.current_cell = (stepState p.state now).physics.curr_cell
  · refine ⟨?_, ?_, ?_⟩ <;> simp [Piece.update, Piece.current_cell, h]
  · refine ⟨?_, ?_, ?_⟩ <;> simp [Piece.update, Piece.current_cell, h]

theorem lastN_idem (n : Nat) (l : List α) : lastN n (lastN n l) = lastN n l := by
  simp [lastN, List.take_take]

theorem lastN_append_one (n : Nat) (xs : List α) (x : α) :
    lastN n (lastN n xs ++ [x]) = lastN n (xs ++ [x]) := by
  cases n with
  | zero => simp [lastN]
  | succ m =>
    simp [lastN, List.reverse_append, List.take_succ_cons, List.take_take,
      min_eq_left (Nat.le_succ m)]

theorem lastN_length_le (n : Nat) (l : List α) : (lastN n l).length ≤ n := by
  simp [lastN]

/-- C10: after recording any stream of `PIECE_MOVED` events (with well-formed
piece ids), the WHITE list is exactly the last `MAX_ROWS` rows whose piece id
has `'W'` as second character, in arrival order, and the BLACK list is exactly
the last `MAX_ROWS` of the others; in particular both lists have at most
`MAX_ROWS` entries. -/
theorem move_log_invariant (rows : List MoveRow)
    (hid : ∀ r ∈ rows, 2 ≤ r.piece_id.length) :
    (MoveLog.init.recordAll rows).white =
      lastN MAX_ROWS (rows.filter isWhiteRow) ∧
    (MoveLog.init.recordAll rows).black =
      lastN MAX_ROWS (rows.filter (fun r => !isWhiteRow r)) ∧
    (MoveLog.init.recordAll rows).white.length ≤ MAX_ROWS ∧
    (MoveLog.init.recordAll rows).black.length ≤ MAX_ROWS := by
  have main : (MoveLog.init.recordAll rows).white =
      lastN MAX_ROWS (rows.filter isWhiteRow) ∧
      (MoveLog.init.recordAll rows).black =
      lastN MAX_ROWS (rows.filter (fun r => !isWhiteRow r)) := by
    clear hid
    induction rows using List.reverseRecOn with
    | nil => simp [MoveLog.recordAll, MoveLog.init, lastN]
    | append_singleton l r ih =>
      have hfold : MoveLog.init.recordAll (l ++ [r]) =
          (MoveLog.init.recordAll l).record r := by
        simp [MoveLog.recordAll, List.foldl_append]
      cases hw : isWhiteRow r
      · constructor
        · rw [hfold, MoveLog.record, if_neg (by simp [hw]), ih.1]
          rw [List.filter_append]
          simp [hw, lastN_idem]
        · rw [hfold, MoveLog.record, if_neg (by simp [hw]), ih.2]
          rw [List.filter_append]
          simp [hw, lastN_append_one]
      · constructor
        · rw [hfold, MoveLog.record, if_pos (by simp [hw]), ih.1]
          rw [List.filter_append]
          simp [hw, lastN_append_one]
        · rw [hfold, MoveLog.record, if_pos (by simp [hw]), ih.2]
          rw [List.filter_append]
          simp [hw, lastN_idem]
  exact ⟨main.1, main.2, by rw [main.1]; exact lastN_length_le _ _,
    by rw [main.2]; exact lastN_length_le _ _⟩

theorem move_log_invariant_witness :
    (∀ r ∈ [rowW, rowB], 2 ≤ r.piece_id.length) ∧
    (MoveLog.init.recordAll [rowW, rowB]).white =
      lastN MAX_ROWS ([rowW, rowB].filter isWhiteRow) :=
  ⟨by decide, (move_log_invariant [rowW, rowB] (by decide)).1⟩

end KFC

namespace KFC

theorem pyMaxFrom_mem (f : Piece → Int) (best : Piece) (l : List Piece) :
    pyMaxFrom f best l ∈ best :: l := by
  induction l generalizing best with
  | nil => simp [pyMaxFrom]
  | cons p rest ih =>
    simp only [pyMaxFrom]
    by_cases hlt : f best < f p
    · simp only [if_pos hlt]
      rcases List.mem_cons.1 (ih p) with h | h
      · exact List.mem_cons_of_mem _ (by rw [h]; exact List.mem_cons_self _ _)
      · exact List.mem_cons_of_mem _ (List.mem_cons_of_mem _ h)
    · simp only [if_neg hlt]
      rcases List.mem_cons.1 (ih best) with h | h
      · rw [h]; exact List.mem_cons_self _ _
      · exact List.mem_cons_of_mem _ (List.mem_cons_of_mem _ h)

theorem pyMaxFrom_ge (f : Piece → Int) (best : Piece) (l : List Piece) :
    ∀ x ∈ best :: l, f x ≤ f (pyMaxFrom f best l) := by
  induction l generalizing best with
  | nil => simp [pyMaxFrom]
  | cons p rest ih =>
    intro x hx
    simp only [pyMaxFrom]
    by_cases hlt : f best < f p
    · simp only [if_pos hlt]
      rcases List.mem_cons.1 hx with h | h
      · exact le_trans (le_of_lt (h ▸ hlt)) (ih p p (List.mem_cons_self _ _))
      · exact ih p x h
    · simp only [if_neg hlt]
      rcases List.mem_cons.1 hx with h | h
      · exact h ▸ ih best best (List.mem_cons_self _ _)
      · rcases List.mem_cons.1 h with h2 | h2
        · exact le_trans (le_of_not_lt (h2 ▸ hlt)) (ih best best (List.mem_cons_self _ _))
        · exact ih best x (List.mem_cons_of_mem _ h2)

theorem pyMax_spec (f : Piece → Int) (l : List Piece) (hne : l ≠ []) :
    ∃ w, pyMax f l = some w ∧ w ∈ l ∧ ∀ x ∈ l, f x ≤ f w := by
  cases l with
  | nil => exact absurd rfl hne
  | cons p rest =>
    exact ⟨pyMaxFrom f p rest, rfl, pyMaxFrom_mem f p rest, pyMaxFrom_ge f p rest⟩

theorem pyMax_eq_some_mem (f : Piece → Int) (l : List Piece) (w : Piece)
    (h : pyMax f l = some w) : w ∈ l := by
  cases l with
  | nil => simp [pyMax] at h
  | cons p rest =>
    simp only [pyMax, Option.some.injEq] at h
    exact h ▸ pyMaxFrom_mem f p rest

theorem determine_collision_winner_mem (group : List Piece) (w : Piece)
    (hw : determine_collision_winner group = some w) : w ∈ group := by
  simp only [determine_collision_winner] at hw
  rcases hmov : pyMax startKey (group.filter nonIdle) with _ | v
  · rw [hmov] at hw
    exact pyMax_eq_some_mem startKey group w hw
  · rw [hmov] at hw
    simp only [Option.some.injEq] at hw
    exact List.mem_of_mem_filter (hw ▸ pyMax_eq_some_mem startKey _ v hmov)

/-- C1: `_determine_collision_winner` on a non-empty group returns a piece of
the group; when some piece of the group is non-idle, the winner is non-idle and
its state-start-timestamp is maximal among the non-idle pieces; when all are
idle, the winner's timestamp is maximal among the whole group.  Moreover, for
two non-idle pieces with timestamps t1 < t2, the one with t2 is chosen under
either input order. -/
theorem determine_collision_winner_correct :
    (∀ ps : List Piece, ps ≠ [] →
      ∃ w, determine_collision_winner ps = some w ∧ w ∈ ps ∧
        ((∃ p ∈ ps, p.state.name ≠ idleName) →
          w.state.name ≠ idleName ∧
          ∀ p ∈ ps, p.state.name ≠ idleName → startKey p ≤ startKey w) ∧
        ((∀ p ∈ ps, p.state.name = idleName) →
          ∀ p ∈ ps, startKey p ≤ startKey w)) ∧
    (∀ p q : Piece, p.state.name ≠ idleName → q.state.name ≠ idleName →
      startKey p < startKey q →
      determine_collision_winner [p, q] = some q ∧
      determine_collision_winner [q, p] = some q) := by
  constructor
  · intro ps hne
    by_cases hmov : ∃ p ∈ ps, p.state.name ≠ idleName
    · obtain ⟨p0, hp0, hp0n⟩ := hmov
      have hmem : p0 ∈ ps.filter nonIdle :=
        List.mem_filter.2 ⟨hp0, by simpa [nonIdle] using hp0n⟩
      have hfne : ps.filter nonIdle ≠ [] := by
        intro h
        rw [h] at hmem
        exact absurd hmem (List.not_mem_nil p0)
      obtain ⟨w, hw, hwmem, hwge⟩ := pyMax_spec startKey _ hfne
      refine ⟨w, ?_, List.mem_of_mem_filter hwmem, ?_, ?_⟩
      · simp [determine_collision_winner, hw]
      · intro _
        refine ⟨by simpa [nonIdle] using (List.mem_filter.1 hwmem).2, ?_⟩
        intro p hp hpn
        exact hwge p (List.mem_filter.2 ⟨hp, by simpa [nonIdle] using hpn⟩)
      · intro hall
        exact absurd (hall p0 hp0) hp0n
    · push_neg at hmov
      have hfil : ps.filter nonIdle = [] := by
        apply List.filter_eq_nil_iff.2
        intro a ha
        simpa [nonIdle] using hmov a ha
      obtain ⟨w, hw, hwmem, hwge⟩ := pyMax_spec startKey ps hne
      refine ⟨w, ?_, hwmem, ?_, fun _ => hwge⟩
      · simp only [determine_collision_winner, hfil]
        exact hw
      · rintro ⟨p, hp, hpn⟩
        exact absurd (hmov p hp) hpn
  · intro p q hpn hqn hlt
    constructor
    · simp [determine_collision_winner, nonIdle, pyMax, pyMaxFrom, hpn, hqn, if_pos hlt]
    · simp [determine_collision_winner, nonIdle, pyMax, pyMaxFrom, hpn, hqn,
        if_neg (not_lt.2 (le_of_lt hlt))]

theorem determine_collision_winner_correct_witness :
    determine_collision_winner [pieceA, pieceB] = some pieceB ∧
    determine_collision_winner [pieceB, pieceA] = some pieceB :=
  determine_collision_winner_correct.2 pieceA pieceB (by decide) (by decide) (by decide)

/-- C2: after the per-cell capture pass, the winner survives; every other
piece of the group is removed and a `PIECE_CAPTURED` event `{victim, winner}`
is published exactly when its color character differs from the winner's and
its `can_be_captured` predicate holds; and every survivor is the winner, or
shares the winner's color, or is not capturable. -/
theorem resolve_cell_correct (group : List Piece) (w : Piece)
    (h2 : 2 ≤ group.length) (hw : determine_collision_winner group = some w) :
    w ∈ (resolve_cell group).1 ∧
    (∀ p ∈ group, p ≠ w →
      ((p ∈ (resolve_cell group).1 ↔
          ¬(colorChar w ≠ colorChar p ∧ p.state.can_be_captured = true)) ∧
       (CaptureEvent.mk p w ∈ (resolve_cell group).2 ↔
          (colorChar w ≠ colorChar p ∧ p.state.can_be_captured = true)))) ∧
    (∀ p ∈ (resolve_cell group).1,
      p = w ∨ colorChar p = colorChar w ∨ p.state.can_be_captured = false) := by
  have hnot : ¬group.length < 2 := not_lt.2 h2
  have hres : resolve_cell group =
      (group.filter (fun p =>
          decide (p = w ∨ colorChar w = colorChar p ∨ p.state.can_be_captured = false)),
       group.filterMap (fun p =>
          if p ≠ w ∧ colorChar w ≠ colorChar p ∧ p.state.can_be_captured = true
          then some ⟨p, w⟩ else none)) := by
    simp [resolve_cell, hnot, hw]
  refine ⟨?_, ?_, ?_⟩
  · rw [hres]
    exact List.mem_filter.2 ⟨determine_collision_winner_mem group w hw, by simp⟩
  · intro p hp hpw
    constructor
    · rw [hres]
      simp only [List.mem_filter, decide_eq_true_eq]
      constructor
      · rintro ⟨-, (h | h | h)⟩
        · exact absurd h hpw
        · rintro ⟨hc, -⟩
          exact hc h
        · rintro ⟨-, hc⟩
          rw [h] at hc
          exact Bool.false_ne_true hc
      · intro h
        refine ⟨hp, ?_⟩
        by_cases hc : colorChar w = colorChar p
        · exact Or.inr (Or.inl hc)
        · rcases hb : p.state.can_be_captured with _ | _
          · exact Or.inr (Or.inr rfl)
          · exact absurd ⟨hc, hb⟩ h
    · rw [hres]
      simp only [List.mem_filterMap]
      constructor
      · rintro ⟨q, hq, hqe⟩
        by_cases hcond : q ≠ w ∧ colorChar w ≠ colorChar q ∧ q.state.can_be_captured = true
        · rw [if_pos hcond] at hqe
          obtain ⟨rfl, -⟩ : q = p ∧ w = w := by
            injection hqe with h
            injection h with h1 h2
            exact ⟨h1, h2⟩
          exact hcond.2
        · rw [if_neg hcond] at hqe
          exact absurd hqe (Option.noConfusion)
      · intro h
        exact ⟨p, hp, by rw [if_pos ⟨hpw, h⟩]⟩
  · intro p hp
    rw [hres] at hp
    have := (List.mem_filter.1 hp).2
    simp only [decide_eq_true_eq] at this
    rcases this with h | h | h
    · exact Or.inl h
    · exact Or.inr (Or.inl h.symm)
    · exact Or.inr (Or.inr h)

/-- C3: `is_game_over` returns true exactly when fewer than two kings (pieces
whose id starts with `KW` or `KB`) remain among the active pieces, and the
status reported by `get_game_state` is `"finished"` exactly in that case. -/
theorem is_game_over_correct (g : GameState) (n : Nat) :
    (is_game_over g = true ↔ g.pieces.countP (fun p => isKingId p.id) < 2) ∧
    (sessionStatus g n = "finished" ↔ is_game_over g = true) := by
  constructor
  · rw [is_game_over, decide_eq_true_eq, List.countP_eq_length_filter]
  · constructor
    · intro h
      by_contra hno
      rw [sessionStatus, if_neg (by simpa using hno)] at h
      by_cases h2 : n = 2
      · rw [if_pos h2] at h
        exact absurd h (by decide)
      · rw [if_neg h2] at h
        exact absurd h (by decide)
    · intro h
      rw [sessionStatus, if_pos h]

/-- C4: a command whose piece id is unknown to `piece_by_id`, or whose
parameter list has fewer than two entries, is rejected by `_process_input`:
it returns `False`, the piece list and the id map are unchanged, and no event
is published — for every behaviour of the external state machine (the model is
total, so the session never faults). -/
theorem process_input_rejects_invalid
    (onCmd : Piece → Command → Option PieceState)
    (g : GameState) (now : Int) (cmd : Command)
    (h : lookupPiece g.piece_by_id cmd.piece_id = none ∨ cmd.params.length < 2) :
    process_input onCmd g now cmd = (false, g, []) := by
  rcases h with h | h
  · rw [process_input]
    split
    · rfl
    · rw [process_move_command, h]
  · rw [process_input, dif_pos h]

theorem process_input_rejects_invalid_witness :
    lookupPiece gameState0.piece_by_id cmdUnknown.piece_id = none ∧
    process_input (fun p _ => some p.state) gameState0 0 cmdUnknown =
      (false, gameState0, []) :=
  ⟨by decide,
   process_input_rejects_invalid (fun p _ => some p.state) gameState0 0 cmdUnknown
     (Or.inl (by decide))⟩

theorem resolve_cell_correct_witness :
    pieceA ∈ [pieceA, pieceB] ∧ pieceA ≠ pieceB ∧
    (pieceA ∈ (resolve_cell [pieceA, pieceB]).1 ↔
      ¬(colorChar pieceB ≠ colorChar pieceA ∧ pieceA.state.can_be_captured = true)) := by
  have h := resolve_cell_correct [pieceA, pieceB] pieceB (by decide) (by decide)
  exact ⟨by decide, by decide,
    (h.2.1 pieceA (by decide) (by decide)).1⟩

theorem lookupNat_mem {α : Type} {m : List (Nat × α)} {k : Nat} {v : α}
    (h : lookupNat m k = some v) : (k, v) ∈ m := by
  induction m with
  | nil => simp [lookupNat] at h
  | cons kv rest ih =>
    obtain ⟨a, b⟩ := kv
    by_cases hk : a = k
    · subst hk
      rw [lookupNat, if_pos rfl] at h
      injection h with h2
      subst h2
      exact List.mem_cons_self _ _
    · rw [lookupNat, if_neg hk] at h
      exact List.mem_cons_of_mem _ (ih h)

theorem lookupNat_append_some {α : Type} {m m2 : List (Nat × α)} {k : Nat}
    {v : α} (h : lookupNat m k = some v) : lookupNat (m ++ m2) k = some v := by
  induction m with
  | nil => simp [lookupNat] at h
  | cons kv rest ih =>
    rw [lookupNat] at h
    rw [List.cons_append, lookupNat]
    by_cases hk : kv.1 = k
    · rw [if_pos hk] at h ⊢
      exact h
    · rw [if_neg hk] at h ⊢
      exact ih h

theorem lookupNat_append_none {α : Type} {m : List (Nat × α)} {k : Nat}
    (h : lookupNat m k = none) (m2 : List (Nat × α)) :
    lookupNat (m ++ m2) k = lookupNat m2 k := by
  induction m with
  | nil => rfl
  | cons kv rest ih =>
    rw [lookupNat] at h
    rw [List.cons_append, lookupNat]
    by_cases hk : kv.1 = k
    · rw [if_pos hk] at h
      exact absurd h (by simp)
    · rw [if_neg hk] at h ⊢
      exact ih h

theorem lookupNat_update_self {α : Type} {m : List (Nat × α)} {k : Nat}
    {v : α} (w : α) (h : lookupNat m k = some v) :
    lookupNat (updateNat m k w) k = some w := by
  induction m with
  | nil => simp [lookupNat] at h
  | cons kv rest ih =>
    rw [lookupNat] at h
    rw [updateNat, List.map_cons]
    by_cases hk : kv.1 = k
    · simp only [if_pos hk]
      rw [lookupNat, if_pos rfl]
    · rw [if_neg hk] at h
      simp only [if_neg hk]
      rw [lookupNat, if_neg hk]
      exact ih h

theorem lookupNat_update_none {α : Type} {m : List (Nat × α)} {k : Nat}
    (w : α) (h : lookupNat m k = none) :
    lookupNat (updateNat m k w) k = none := by
  induction m with
  | nil => rfl
  | cons kv rest ih =>
    rw [lookupNat] at h
    rw [updateNat, List.map_cons]
    by_cases hk : kv.1 = k
    · rw [if_pos hk] at h
      exact absurd h (by simp)
    · rw [if_neg hk] at h
      simp only [if_neg hk]
      rw [lookupNat, if_neg hk]
      exact ih h

theorem lookupNat_update_ne {α : Type} {m : List (Nat × α)} {k j : Nat}
    (w : α) (hne : j ≠ k) :
    lookupNat (updateNat m k w) j = lookupNat m j := by
  induction m with
  | nil => rfl
  | cons kv rest ih =>
    rw [updateNat, List.map_cons]
    by_cases hk : kv.1 = k
    · simp only [if_pos hk]
      rw [lookupNat, if_neg (fun he => hne he.symm), lookupNat,
        if_neg (fun he => hne (hk ▸ he).symm)]
      exact ih
    · simp only [if_neg hk]
      rw [lookupNat, lookupNat]
      by_cases hj : kv.1 = j
      · rw [if_pos hj, if_pos hj]
      · rw [if_neg hj, if_neg hj]
        exact ih

theorem updateNat_keys {α : Type} (m : List (Nat × α)) (k : Nat) (v : α) :
    (updateNat m k v).map Prod.fst = m.map Prod.fst := by
  induction m with
  | nil => rfl
  | cons kv rest ih =>
    rw [updateNat, List.map_cons, List.map_cons, List.map_cons]
    by_cases hk : kv.1 = k
    · simp only [if_pos hk]
      rw [hk]
      exact congrArg _ ih
    · simp only [if_neg hk]
      exact congrArg _ ih

theorem mem_updateNat {α : Type} {m : List (Nat × α)} {k : Nat} {v : α}
    {g : Nat × α} (h : g ∈ updateNat m k v) : g ∈ m ∨ g = (k, v) := by
  rw [updateNat, List.mem_map] at h
  obtain ⟨kv, hkv, he⟩ := h
  by_cases hk : kv.1 = k
  · rw [if_pos hk] at he
    exact Or.inr he.symm
  · rw [if_neg hk] at he
    exact Or.inl (he ▸ hkv)

theorem updateNat_updateNat {α : Type} (m : List (Nat × α)) (k : Nat)
    (a b : α) : updateNat (updateNat m k a) k b = updateNat m k b := by
  induction m with
  | nil => rfl
  | cons kv rest ih =>
    rw [updateNat, updateNat, updateNat, List.map_cons, List.map_cons,
      List.map_cons]
    by_cases hk : kv.1 = k
    · simp only [if_pos hk, if_pos rfl]
      exact congrArg _ ih
    · simp only [if_neg hk]
      exact congrArg _ ih

theorem lookupNat_none_of_keys_lt {α : Type} {m : List (Nat × α)} {k : Nat}
    (h : ∀ g ∈ m, g.1 < k) : lookupNat m k = none := by
  induction m with
  | nil => rfl
  | cons kv rest ih =>
    rw [lookupNat, if_neg (Nat.ne_of_lt (h kv (List.mem_cons_self _ _)))]
    exact ih (fun g hg => h g (List.mem_cons_of_mem _ hg))

theorem lookupNat_filter_ne {α : Type} {m : List (Nat × α)} {gid j : Nat}
    (h : j ≠ gid) :
    lookupNat (m.filter (fun g => decide (g.1 ≠ gid))) j = lookupNat m j := by
  induction m with
  | nil => rfl
  | cons kv rest ih =>
    by_cases hk : kv.1 = gid
    · rw [List.filter_cons_of_neg (by simp [hk]), lookupNat,
        if_neg (fun (he : kv.1 = j) => h (he ▸ hk))]
      exact ih
    · rw [List.filter_cons_of_pos (by simp [hk]), lookupNat, lookupNat]
      by_cases hj : kv.1 = j
      · rw [if_pos hj, if_pos hj]
      · rw [if_neg hj, if_neg hj]
        exact ih

theorem lookupNat_filter_self {α : Type} {m : List (Nat × α)} {gid : Nat} :
    lookupNat (m.filter (fun g => decide (g.1 ≠ gid))) gid = none := by
  induction m with
  | nil => rfl
  | cons kv rest ih =>
    by_cases hk : kv.1 = gid
    · rw [List.filter_cons_of_neg (by simp [hk])]
      exact ih
    · rw [List.filter_cons_of_pos (by simp [hk]), lookupNat, if_neg hk]
      exact ih

theorem findAvail_mem_keys {gs : List (Nat × GameData)} {gid : Nat}
    (h : findAvail gs = some gid) : gid ∈ gs.map Prod.fst := by
  induction gs with
  | nil => simp [findAvail] at h
  | cons g rest ih =>
    rw [findAvail] at h
    rw [List.map_cons]
    by_cases hg : g.2.players.length < 2
    · rw [if_pos hg] at h
      injection h with h2
      exact List.mem_cons.2 (Or.inl h2.symm)
    · rw [if_neg hg] at h
      exact List.mem_cons_of_mem _ (ih h)

theorem findAvail_lookup_lt {gs : List (Nat × GameData)} {gid : Nat}
    {gd : GameData} (hnd : (gs.map Prod.fst).Nodup)
    (h : findAvail gs = some gid) (hl : lookupNat gs gid = some gd) :
    gd.players.length < 2 := by
  induction gs with
  | nil => simp [findAvail] at h
  | cons g rest ih =>
    rw [findAvail] at h
    rw [lookupNat] at hl
    rw [List.map_cons, List.nodup_cons] at hnd
    by_cases hg : g.2.players.length < 2
    · rw [if_pos hg] at h
      injection h with h2
      rw [if_pos h2] at hl
      injection hl with h3
      exact h3 ▸ hg
    · rw [if_neg hg] at h
      have hmem := findAvail_mem_keys h
      have hne : g.1 ≠ gid := fun he => hnd.1 (he ▸ hmem)
      rw [if_neg hne] at hl
      exact ih hnd.2 h hl

theorem fallback_color_not_mem {existing : List String} {c : String}
    (h : fallback_color existing = some c) : c ∉ existing := by
  rw [fallback_color] at h
  by_cases hw : "white" ∈ existing
  · rw [if_neg (by simpa using hw)] at h
    by_cases hb : "black" ∈ existing
    · rw [if_neg (by simpa using hb)] at h
      exact absurd h (by simp)
    · rw [if_pos (by simpa using hb)] at h
      injection h with h2
      exact h2 ▸ hb
  · rw [if_pos (by simpa using hw)] at h
    injection h with h2
    exact h2 ▸ hw

theorem fallback_color_wb {existing : List String} {c : String}
    (h : fallback_color existing = some c) : c = "white" ∨ c = "black" := by
  rw [fallback_color] at h
  split at h
  · injection h with h2
    exact Or.inl h2.symm
  · split at h
    · injection h with h2
      exact Or.inr h2.symm
    · exact absurd h (by simp)

theorem fallback_color_none {existing : List String}
    (h : fallback_color existing = none) :
    "white" ∈ existing ∧ "black" ∈ existing := by
  rw [fallback_color] at h
  split at h
  · exact absurd h (by simp)
  · split at h
    · exact absurd h (by simp)
    · rename_i hw hb
      exact ⟨not_not.1 (by simpa using hw), not_not.1 (by simpa using hb)⟩

theorem choose_color_not_mem {existing : List String} {pc : Option String}
    {c : String} (h : choose_color existing pc = some c) : c ∉ existing := by
  cases pc with
  | none => exact fallback_color_not_mem h
  | some p =>
    simp only [choose_color] at h
    split at h
    · injection h with h2
      rename_i hcond
      exact h2 ▸ hcond.2
    · exact fallback_color_not_mem h

theorem choose_color_wb {existing : List String} {pc : Option String}
    {c : String} (hv : validPreferred pc)
    (h : choose_color existing pc = some c) : c = "white" ∨ c = "black" := by
  rcases hv with rfl | rfl | rfl | rfl
  · exact fallback_color_wb h
  · simp only [choose_color] at h
    rw [if_neg (by simp)] at h
    exact fallback_color_wb h
  · simp only [choose_color] at h
    split at h
    · injection h with h2
      exact Or.inl h2.symm
    · exact fallback_color_wb h
  · simp only [choose_color] at h
    split at h
    · injection h with h2
      exact Or.inr h2.symm
    · exact fallback_color_wb h

theorem choose_color_none {existing : List String} {pc : Option String}
    (h : choose_color existing pc = none) :
    "white" ∈ existing ∧ "black" ∈ existing := by
  cases pc with
  | none => exact fallback_color_none h
  | some p =>
    simp only [choose_color] at h
    split at h
    · exact absurd h (by simp)
    · exact fallback_color_none h

theorem choose_color_pref {existing : List String} {c : String}
    (hne : c ≠ "") (hnm : c ∉ existing) :
    choose_color existing (some c) = some c := by
  simp only [choose_color]
  rw [if_pos ⟨hne, hnm⟩]

theorem nodup_append_one {α : Type} {l : List α} {a : α}
    (hl : l.Nodup) (ha : a ∉ l) : (l ++ [a]).Nodup := by
  rw [List.nodup_append]
  exact ⟨hl, List.nodup_singleton a, by
    intro x hx hx2
    rw [List.mem_singleton] at hx2
    exact ha (hx2 ▸ hx)⟩

theorem join_to_game_games (s1 : ServerState) (gid : Nat) (gdata : GameData)
    (pid : Nat) (n color : String) :
    (join_to_game s1 gid gdata pid n color).games =
      updateNat s1.games gid (joined_game_record gdata pid n color) := by
  simp only [join_to_game, joined_game_record]
  split
  · exact updateNat_updateNat _ _ _ _
  · rfl

theorem join_to_game_next_game_id (s1 : ServerState) (gid : Nat)
    (gdata : GameData) (pid : Nat) (n color : String) :
    (join_to_game s1 gid gdata pid n color).next_game_id = s1.next_game_id := by
  simp only [join_to_game]
  split <;> rfl

theorem joined_game_record_WF (gdata : GameData) (pid : Nat) (n color : String)
    (hWF : GameWF gdata) (hlen : gdata.players.length < 2)
    (hnm : color ∉ gdata.players.map (fun kv => kv.2.color)) :
    GameWF (joined_game_record gdata pid n color) := by
  obtain ⟨h2, hnd, hst⟩ := hWF
  refine ⟨?_, ?_, ?_⟩
  · simp only [joined_game_record, List.length_append, List.length_singleton]
    omega
  · simp only [joined_game_record, List.map_append, List.map_cons, List.map_nil]
    exact nodup_append_one hnd hnm
  · intro hs
    simp only [joined_game_record] at hs ⊢
    split at hs
    · rename_i hcond
      exact hcond.1
    · rename_i hcond
      have := hst hs
      omega

theorem lookupNat_isSome_of_mem_keys {α : Type} {m : List (Nat × α)} {k : Nat}
    (h : k ∈ m.map Prod.fst) : ∃ v, lookupNat m k = some v := by
  induction m with
  | nil => simp at h
  | cons kv rest ih =>
    rw [List.map_cons] at h
    by_cases hk : kv.1 = k
    · exact ⟨kv.2, by rw [lookupNat, if_pos hk]⟩
    · rcases List.mem_cons.1 h with h1 | h1
      · exact absurd h1.symm hk
      · obtain ⟨v, hv⟩ := ih h1
        exact ⟨v, by rw [lookupNat, if_neg hk]; exact hv⟩

theorem handle_player_join_cases (s : ServerState) (n : String)
    (pc : Option String) (hWF : ServerWF s) :
    ((handle_player_join s n pc).2 = JoinOutcome.full ∧
      (handle_player_join s n pc).1 = s) ∨
    (∃ gid gdata color,
      (handle_player_join s n pc).2 =
        JoinOutcome.joined gid s.next_player_id color ∧
      choose_color (gdata.players.map (fun kv => kv.2.color)) pc = some color ∧
      gdata.players.length < 2 ∧ GameWF gdata ∧
      ((lookupNat s.games gid = some gdata ∧ gid < s.next_game_id) ∨
        (lookupNat s.games gid = none ∧ gid = s.next_game_id ∧
          gdata = { players := [], game_started := false })) ∧
      lookupNat (handle_player_join s n pc).1.games gid =
        some (joined_game_record gdata s.next_player_id n color) ∧
      (∀ j, j ≠ gid → lookupNat (handle_player_join s n pc).1.games j =
        lookupNat s.games j)) := by
  obtain ⟨hGW, hlt, hnd⟩ := hWF
  rcases hav : find_available_game s with _ | gid
  · -- no free seat anywhere: a fresh empty game is created and joined
    have hfresh : lookupNat s.games s.next_game_id = none :=
      lookupNat_none_of_keys_lt hlt
    have hlook : lookupNat (s.games ++
        [(s.next_game_id, ({ players := [], game_started := false } : GameData))])
        s.next_game_id = some { players := [], game_started := false } := by
      rw [lookupNat_append_none hfresh, lookupNat, if_pos rfl]
    rcases hc : choose_color ([] : List String) pc with _ | color
    · exact absurd (choose_color_none hc).1 (by simp)
    · refine Or.inr ⟨s.next_game_id, { players := [], game_started := false },
        color, ?_, by simpa using hc, by simp, ⟨by simp, by simp, by simp⟩,
        Or.inr ⟨hfresh, rfl, rfl⟩, ?_, ?_⟩
      · simp only [handle_player_join, hav, create_new_game]
        rw [hlook]
        simp only [List.map_nil, hc]
      · simp only [handle_player_join, hav, create_new_game]
        rw [hlook]
        simp only [List.map_nil, hc, join_to_game_games]
        exact lookupNat_update_self _ hlook
      · intro j hj
        simp only [handle_player_join, hav, create_new_game]
        rw [hlook]
        simp only [List.map_nil, hc, join_to_game_games]
        rw [lookupNat_update_ne _ hj]
        rcases hx : lookupNat s.games j with _ | gd
        · rw [lookupNat_append_none hx, lookupNat, if_neg (fun he => hj he.symm)]
          rfl
        · exact lookupNat_append_some hx
  · -- a free seat exists in game `gid`
    rcases hg : lookupNat s.games gid with _ | gdata
    · obtain ⟨v, hv⟩ := lookupNat_isSome_of_mem_keys (findAvail_mem_keys hav)
      rw [hg] at hv
      exact absurd hv (by simp)
    · have hlen : gdata.players.length < 2 := findAvail_lookup_lt hnd hav hg
      rcases hc : choose_color (gdata.players.map (fun kv => kv.2.color)) pc
          with _ | color
      · refine Or.inl ⟨?_, ?_⟩
        · simp only [handle_player_join, hav]
          rw [hg]
          simp only [hc]
        · simp only [handle_player_join, hav]
          rw [hg]
          simp only [hc]
      · refine Or.inr ⟨gid, gdata, color, ?_, hc, hlen,
          hGW (gid, gdata) (lookupNat_mem hg), Or.inl ⟨hg,
            hlt (gid, gdata) (lookupNat_mem hg)⟩, ?_, ?_⟩
        · simp only [handle_player_join, hav]
          rw [hg]
          simp only [hc]
        · simp only [handle_player_join, hav]
          rw [hg]
          simp only [hc, join_to_game_games]
          exact lookupNat_update_self _ hg
        · intro j hj
          simp only [handle_player_join, hav]
          rw [hg]
          simp only [hc, join_to_game_games]
          exact lookupNat_update_ne _ hj

theorem not_mem_keys_of_lt {α : Type} {m : List (Nat × α)} {k : Nat}
    (h : ∀ g ∈ m, g.1 < k) : k ∉ m.map Prod.fst := by
  intro hmem
  rw [List.mem_map] at hmem
  obtain ⟨g, hg, hfst⟩ := hmem
  exact lt_irrefl k (hfst ▸ h g hg)

theorem join_to_game_pres (s1 : ServerState) (gid : Nat) (gdata : GameData)
    (pid : Nat) (n color : String)
    (hGW1 : ∀ g ∈ s1.games, GameWF g.2)
    (hlt1 : ∀ g ∈ s1.games, g.1 < s1.next_game_id)
    (hnd1 : (s1.games.map Prod.fst).Nodup)
    (hWFg : GameWF gdata) (hlen : gdata.players.length < 2)
    (hnm : color ∉ gdata.players.map (fun kv => kv.2.color))
    (hgid : gid < s1.next_game_id) :
    ServerWF (join_to_game s1 gid gdata pid n color) := by
  refine ⟨?_, ?_, ?_⟩
  · intro g hg
    rw [join_to_game_games] at hg
    rcases mem_updateNat hg with h | h
    · exact hGW1 g h
    · rw [h]
      exact joined_game_record_WF gdata pid n color hWFg hlen hnm
  · intro g hg
    rw [join_to_game_games] at hg
    rw [join_to_game_next_game_id]
    rcases mem_updateNat hg with h | h
    · exact hlt1 g h
    · rw [h]
      exact hgid
  · rw [join_to_game_games, updateNat_keys]
    exact hnd1

theorem join_to_game_colors (s1 : ServerState) (gid : Nat) (gdata : GameData)
    (pid : Nat) (n color : String)
    (hcol1 : ∀ g ∈ s1.games, GameColorsWB g.2)
    (hcw : color = "white" ∨ color = "black")
    (hcolg : GameColorsWB gdata) :
    ∀ g ∈ (join_to_game s1 gid gdata pid n color).games, GameColorsWB g.2 := by
  intro g hg
  rw [join_to_game_games] at hg
  rcases mem_updateNat hg with h | h
  · exact hcol1 g h
  · rw [h]
    intro kv hkv
    simp only [joined_game_record] at hkv
    rcases List.mem_append.1 hkv with h2 | h2
    · exact hcolg kv h2
    · rw [List.mem_singleton] at h2
      rw [h2]
      exact hcw

theorem handle_player_join_pres (s : ServerState) (n : String)
    (pc : Option String) (hWF : ServerWF s) :
    ServerWF (handle_player_join s n pc).1 ∧
    ((∀ g ∈ s.games, GameColorsWB g.2) → validPreferred pc →
      ∀ g ∈ (handle_player_join s n pc).1.games, GameColorsWB g.2) := by
  obtain ⟨hGW, hlt, hnd⟩ := hWF
  rcases hav : find_available_game s with _ | gid
  · have hfresh : lookupNat s.games s.next_game_id = none :=
      lookupNat_none_of_keys_lt hlt
    have hlook : lookupNat (s.games ++
        [(s.next_game_id, ({ players := [], game_started := false } : GameData))])
        s.next_game_id = some { players := [], game_started := false } := by
      rw [lookupNat_append_none hfresh, lookupNat, if_pos rfl]
    rcases hc : choose_color ([] : List String) pc with _ | color
    · exact absurd (choose_color_none hc).1 (by simp)
    · simp only [handle_player_join, hav, create_new_game]
      rw [hlook]
      simp only [List.map_nil, hc]
      have hGW1 : ∀ g ∈ s.games ++
          [(s.next_game_id, ({ players := [], game_started := false } : GameData))],
          GameWF g.2 := by
        intro g hg
        rcases List.mem_append.1 hg with h | h
        · exact hGW g h
        · rw [List.mem_singleton] at h
          rw [h]
          exact ⟨by simp, by simp, by simp⟩
      have hlt1 : ∀ g ∈ s.games ++
          [(s.next_game_id, ({ players := [], game_started := false } : GameData))],
          g.1 < s.next_game_id + 1 := by
        intro g hg
        rcases List.mem_append.1 hg with h | h
        · exact Nat.lt_succ_of_lt (hlt g h)
        · rw [List.mem_singleton] at h
          rw [h]
          exact Nat.lt_succ_self _
      have hnd1 : ((s.games ++
          [(s.next_game_id, ({ players := [], game_started := false } : GameData))]).map
            Prod.fst).Nodup := by
        rw [List.map_append, List.map_cons, List.map_nil]
        exact nodup_append_one hnd (not_mem_keys_of_lt hlt)
      constructor
      · exact join_to_game_pres _ _ _ _ _ _ hGW1 hlt1 hnd1
          ⟨by simp, by simp, by simp⟩ (by simp) (by simp) (Nat.lt_succ_self _)
      · intro hcol hv
        refine join_to_game_colors _ _ _ _ _ _ ?_ (choose_color_wb hv hc) ?_
        · intro g2 hg2
          rcases List.mem_append.1 hg2 with h | h
          · exact hcol g2 h
          · rw [List.mem_singleton] at h
            rw [h]
            intro kv hkv
            simp at hkv
        · intro kv hkv
          simp at hkv
  · rcases hg : lookupNat s.games gid with _ | gdata
    · obtain ⟨v, hv⟩ := lookupNat_isSome_of_mem_keys (findAvail_mem_keys hav)
      rw [hg] at hv
      exact absurd hv (by simp)
    · have hlen : gdata.players.length < 2 := findAvail_lookup_lt hnd hav hg
      rcases hc : choose_color (gdata.players.map (fun kv => kv.2.color)) pc
          with _ | color
      · constructor
        · simp only [handle_player_join, hav]
          rw [hg]
          simp only [hc]
          exact ⟨hGW, hlt, hnd⟩
        · intro hcol hv
          simp only [handle_player_join, hav]
          rw [hg]
          simp only [hc]
          exact hcol
      · constructor
        · simp only [handle_player_join, hav]
          rw [hg]
          simp only [hc]
          exact join_to_game_pres _ _ _ _ _ _ hGW hlt hnd
            (hGW (gid, gdata) (lookupNat_mem hg)) hlen
            (choose_color_not_mem hc) (hlt (gid, gdata) (lookupNat_mem hg))
        · intro hcol hv
          simp only [handle_player_join, hav]
          rw [hg]
          simp only [hc]
          exact join_to_game_colors _ _ _ _ _ _ hcol
            (choose_color_wb hv hc) (hcol (gid, gdata) (lookupNat_mem hg))

theorem disconnect_in_game_length (gd : GameData) (pid : Nat) :
    (disconnect_in_game gd pid).players.length = gd.players.length := by
  simp [disconnect_in_game]

theorem disconnect_in_game_started (gd : GameData) (pid : Nat) :
    (disconnect_in_game gd pid).game_started = gd.game_started := rfl

theorem disconnect_in_game_colors (gd : GameData) (pid : Nat) :
    (disconnect_in_game gd pid).players.map (fun kv => kv.2.color) =
      gd.players.map (fun kv => kv.2.color) := by
  simp only [disconnect_in_game, List.map_map]
  apply List.map_congr_left
  intro kv _
  by_cases hk : kv.1 = pid
  · simp [hk]
  · simp [hk]

theorem disconnect_in_game_WF (gd : GameData) (pid : Nat) (h : GameWF gd) :
    GameWF (disconnect_in_game gd pid) := by
  obtain ⟨h2, hnd, hst⟩ := h
  refine ⟨?_, ?_, ?_⟩
  · rw [disconnect_in_game_length]
    exact h2
  · rw [disconnect_in_game_colors]
    exact hnd
  · intro hs
    rw [disconnect_in_game_length]
    exact hst (by rw [← disconnect_in_game_started gd pid]; exact hs)

theorem unregister_effect_struct (s : ServerState) (pid : Nat) :
    (unregister_client s pid).next_game_id = s.next_game_id ∧
    ((unregister_client s pid).games = s.games ∨
     (∃ gid gd, lookupNat s.games gid = some gd ∧
       (unregister_client s pid).games =
         updateNat s.games gid (disconnect_in_game gd pid)) ∨
     (∃ gid gd, lookupNat s.games gid = some gd ∧
       (disconnect_in_game gd pid).players.length = 0 ∧
       (unregister_client s pid).games =
         (updateNat s.games gid (disconnect_in_game gd pid)).filter
           (fun g => decide (g.1 ≠ gid)))) := by
  rw [unregister_client]
  by_cases hcl : pid ∈ s.clients
  · rw [if_pos hcl]
    rcases hp : lookupNat s.player_to_game pid with _ | gid
    · simp only [hp]
      exact ⟨by trivial, Or.inl (by trivial)⟩
    · simp only [hp]
      rcases hg : lookupNat s.games gid with _ | gd
      · simp only [hg]
        exact ⟨by trivial, Or.inl (by trivial)⟩
      · simp only [hg]
        by_cases hmem : pid ∈ gd.players.map Prod.fst
        · rw [if_pos hmem]
          by_cases hcount :
              ((disconnect_in_game gd pid).players.filter
                (fun kv => kv.2.connected)).length = 0
          · rw [if_pos hcount]
            rw [remove_game_if_empty]
            have hup : lookupNat
                (updateNat s.games gid (disconnect_in_game gd pid)) gid =
                some (disconnect_in_game gd pid) :=
              lookupNat_update_self _ hg
            simp only [hup]
            by_cases hlen0 : (disconnect_in_game gd pid).players.length = 0
            · rw [if_pos hlen0]
              exact ⟨by trivial, Or.inr (Or.inr ⟨gid, gd, hg, hlen0, by trivial⟩)⟩
            · rw [if_neg hlen0]
              exact ⟨by trivial, Or.inr (Or.inl ⟨gid, gd, hg, by trivial⟩)⟩
          · rw [if_neg hcount]
            exact ⟨by trivial, Or.inr (Or.inl ⟨gid, gd, hg, by trivial⟩)⟩
        · rw [if_neg hmem]
          exact ⟨by trivial, Or.inl (by trivial)⟩
  · rw [if_neg hcl]
    exact ⟨by trivial, Or.inl (by trivial)⟩

theorem unregister_client_WF (s : ServerState) (pid : Nat)
    (hWF : ServerWF s) : ServerWF (unregister_client s pid) := by
  obtain ⟨hGW, hlt, hnd⟩ := hWF
  obtain ⟨hng, hcase⟩ := unregister_effect_struct s pid
  rcases hcase with he | he | he
  · rw [ServerWF, he, hng]
    exact ⟨hGW, hlt, hnd⟩
  · obtain ⟨gid, gd, hg, he⟩ := he
    rw [ServerWF, he, hng]
    refine ⟨?_, ?_, ?_⟩
    · intro g hg2
      rcases mem_updateNat hg2 with h | h
      · exact hGW g h
      · rw [h]
        exact disconnect_in_game_WF gd pid (hGW (gid, gd) (lookupNat_mem hg))
    · intro g hg2
      rcases mem_updateNat hg2 with h | h
      · exact hlt g h
      · rw [h]
        exact hlt (gid, gd) (lookupNat_mem hg)
    · rw [updateNat_keys]
      exact hnd
  · obtain ⟨gid, gd, hg, hlen0, he⟩ := he
    rw [ServerWF, he, hng]
    refine ⟨?_, ?_, ?_⟩
    · intro g hg2
      have hg3 := List.mem_of_mem_filter hg2
      rcases mem_updateNat hg3 with h | h
      · exact hGW g h
      · rw [h]
        exact disconnect_in_game_WF gd pid (hGW (gid, gd) (lookupNat_mem hg))
    · intro g hg2
      have hg3 := List.mem_of_mem_filter hg2
      rcases mem_updateNat hg3 with h | h
      · exact hlt g h
      · rw [h]
        exact hlt (gid, gd) (lookupNat_mem hg)
    · exact ((updateNat_keys s.games gid
        (disconnect_in_game gd pid) ▸ hnd).sublist
          ((List.filter_sublist _).map Prod.fst))

theorem unregister_no_new (s : ServerState) (pid j : Nat)
    (h : lookupNat s.games j = none) :
    lookupNat (unregister_client s pid).games j = none := by
  obtain ⟨-, hcase⟩ := unregister_effect_struct s pid
  rcases hcase with he | he | he
  · rw [he]
    exact h
  · obtain ⟨gid, gd, hg, he⟩ := he
    rw [he]
    by_cases hj : j = gid
    · subst hj
      rw [hg] at h
      exact absurd h (by simp)
    · rw [lookupNat_update_ne _ hj]
      exact h
  · obtain ⟨gid, gd, hg, hlen0, he⟩ := he
    rw [he]
    by_cases hj : j = gid
    · subst hj
      exact lookupNat_filter_self
    · rw [lookupNat_filter_ne hj, lookupNat_update_ne _ hj]
      exact h

theorem unregister_keeps (s : ServerState) (pid j : Nat) (gd : GameData)
    (h : lookupNat s.games j = some gd) :
    (∃ gd2, lookupNat (unregister_client s pid).games j = some gd2 ∧
      gd2.players.length = gd.players.length ∧
      gd2.game_started = gd.game_started) ∨
    (gd.players.length = 0 ∧
      lookupNat (unregister_client s pid).games j = none) := by
  obtain ⟨-, hcase⟩ := unregister_effect_struct s pid
  rcases hcase with he | he | he
  · rw [he]
    exact Or.inl ⟨gd, h, rfl, rfl⟩
  · obtain ⟨gid, gd0, hg, he⟩ := he
    rw [he]
    by_cases hj : j = gid
    · subst hj
      rw [h] at hg
      injection hg with hg2
      subst hg2
      exact Or.inl ⟨disconnect_in_game gd pid, lookupNat_update_self _ h,
        disconnect_in_game_length gd pid, disconnect_in_game_started gd pid⟩
    · rw [lookupNat_update_ne _ hj]
      exact Or.inl ⟨gd, h, rfl, rfl⟩
  · obtain ⟨gid, gd0, hg, hlen0, he⟩ := he
    rw [he]
    by_cases hj : j = gid
    · subst hj
      rw [h] at hg
      injection hg with hg2
      subst hg2
      refine Or.inr ⟨?_, lookupNat_filter_self⟩
      rw [← disconnect_in_game_length gd pid]
      exact hlen0
    · rw [lookupNat_filter_ne hj, lookupNat_update_ne _ hj]
      exact Or.inl ⟨gd, h, rfl, rfl⟩

/-- C6: at the concrete failing input — a game whose only connected player
disconnects — `unregister_client` marks the player disconnected but the game
stays in the `games` registry: `remove_game_if_empty` only deletes a game
whose `players` dict is empty, yet disconnected players are never deleted from
it, so the session is never destroyed, contradicting the claim. -/
theorem unregister_last_player_keeps_game :
    (unregister_client serverC6 7).games =
      [(1, { players := [(7, { name := "alice", color := "white",
                               connected := false })],
             game_started := false })] ∧
    statusOf (unregister_client serverC6 7) 1 =
      some "waiting" := by
  constructor
  · decide
  · decide

theorem status_active_iff (gd : GameData) :
    game_status gd = "active" ↔
      (2 ≤ gd.players.length ∧ gd.game_started = true) := by
  rw [game_status]
  constructor
  · intro h
    by_cases h1 : gd.players.length < 2
    · rw [if_pos h1] at h
      exact absurd h (by decide)
    · rw [if_neg h1] at h
      by_cases h2 : gd.game_started = true
      · exact ⟨not_lt.1 h1, h2⟩
      · rw [if_neg h2] at h
        exact absurd h (by decide)
  · rintro ⟨h1, h2⟩
    rw [if_neg (not_lt.2 h1), if_pos h2]

theorem game_status_congr {gd gd2 : GameData}
    (hlen : gd2.players.length = gd.players.length)
    (hst : gd2.game_started = gd.game_started) :
    game_status gd2 = game_status gd := by
  rw [game_status, game_status, hlen, hst]

theorem stepServer_WF (s : ServerState) (e : SEvent) (hWF : ServerWF s) :
    ServerWF (stepServer s e) := by
  cases e with
  | join n pc => exact (handle_player_join_pres s n pc hWF).1
  | leave pid => exact unregister_client_WF s pid hWF

theorem applyEvents_WF (es : List SEvent) (s : ServerState)
    (hWF : ServerWF s) : ServerWF (applyEvents s es) := by
  induction es generalizing s with
  | nil => exact hWF
  | cons e rest ih => exact ih (stepServer s e) (stepServer_WF s e hWF)

theorem serverInit_WF : ServerWF serverInit := by
  refine ⟨?_, ?_, ?_⟩ <;> simp [serverInit]

theorem status_active_step (s : ServerState) (hWF : ServerWF s) (gid : Nat)
    (e : SEvent) (h : statusOf s gid = some "active") :
    statusOf (stepServer s e) gid = some "active" := by
  rcases hg : lookupNat s.games gid with _ | gd
  · rw [statusOf, hg] at h
    exact absurd h (by simp)
  · rw [statusOf, hg, Option.map_some'] at h
    injection h with ha
    obtain ⟨h2, hst⟩ := (status_active_iff gd).1 ha
    cases e with
    | join n pc =>
      rcases handle_player_join_cases s n pc hWF with ⟨-, hs⟩ |
        ⟨gid0, gdata, color, -, -, hlen, -, hold, hself, hothers⟩
      · show statusOf (handle_player_join s n pc).1 gid = some "active"
        rw [hs, statusOf, hg, Option.map_some', ha]
      · by_cases hj : gid = gid0
        · subst hj
          rcases hold with ⟨hg2, -⟩ | ⟨hg2, -, -⟩
          · rw [hg] at hg2
            injection hg2 with hg3
            rw [hg3] at h2
            omega
          · rw [hg] at hg2
            exact absurd hg2 (by simp)
        · show statusOf (handle_player_join s n pc).1 gid = some "active"
          rw [statusOf, hothers gid hj, hg, Option.map_some', ha]
    | leave pid =>
      rcases unregister_keeps s pid gid gd hg with ⟨gd2, hl2, hlen2, hst2⟩ |
        ⟨hlen0, -⟩
      · show statusOf (unregister_client s pid) gid = some "active"
        rw [statusOf, hl2, Option.map_some', game_status_congr hlen2 hst2, ha]
      · omega

theorem status_active_many_steps (es2 : List SEvent) (s : ServerState)
    (hWF : ServerWF s) (gid : Nat)
    (h : statusOf s gid = some "active") :
    statusOf (applyEvents s es2) gid = some "active" := by
  induction es2 generalizing s with
  | nil => exact h
  | cons e rest ih =>
    exact ih (stepServer s e) (stepServer_WF s e hWF)
      (status_active_step s hWF gid e h)

theorem second_join_activates (s : ServerState) (hWF : ServerWF s) (gid : Nat)
    (n : String) (pc : Option String)
    (h1 : playersCount s gid = some 1)
    (h2 : playersCount (stepServer s (SEvent.join n pc)) gid = some 2) :
    statusOf (stepServer s (SEvent.join n pc)) gid = some "active" := by
  rcases handle_player_join_cases s n pc hWF with ⟨-, hs⟩ |
    ⟨gid0, gdata, color, -, -, hlen, hWFg, hold, hself, hothers⟩
  · exfalso
    have h3 : playersCount (handle_player_join s n pc).1 gid = some 2 := h2
    rw [hs, h1] at h3
    exact absurd h3 (by simp)
  · by_cases hj : gid = gid0
    · subst hj
      rcases hold with ⟨hg, -⟩ | ⟨hg, -, -⟩
      swap
      · exfalso
        rw [playersCount, hg] at h1
        exact absurd h1 (by simp)
      · have hlen1 : gdata.players.length = 1 := by
          rw [playersCount, hg, Option.map_some'] at h1
          injection h1
        have hstf : gdata.game_started = false := by
          rcases hb : gdata.game_started with _ | _
          · rfl
          · have := hWFg.2.2 hb
            omega
        show statusOf (handle_player_join s n pc).1 gid = some "active"
        rw [statusOf, hself, Option.map_some']
        have hreclen : (joined_game_record gdata s.next_player_id n
            color).players.length = 2 := by
          simp [joined_game_record, hlen1]
        have hrecst : (joined_game_record gdata s.next_player_id n
            color).game_started = true := by
          simp only [joined_game_record]
          rw [if_pos ⟨by simpa [joined_game_record] using hreclen, hstf⟩]
        rw [(status_active_iff _).2 ⟨by omega, hrecst⟩]
    · exfalso
      have h3 : playersCount (handle_player_join s n pc).1 gid = some 2 := h2
      rw [playersCount, hothers gid hj] at h3
      rw [playersCount] at h1
      rw [h1] at h3
      exact absurd h3 (by simp)

theorem activation_is_second_join (s : ServerState) (hWF : ServerWF s)
    (gid : Nat) (e : SEvent)
    (hbefore : statusOf s gid ≠ some "active")
    (hafter : statusOf (stepServer s e) gid = some "active") :
    ∃ n pc, e = SEvent.join n pc ∧ playersCount s gid = some 1 ∧
      playersCount (stepServer s e) gid = some 2 := by
  cases e with
  | leave pid =>
    exfalso
    rcases hg : lookupNat s.games gid with _ | gd
    · have h3 : statusOf (unregister_client s pid) gid = some "active" := hafter
      rw [statusOf, unregister_no_new s pid gid hg] at h3
      exact absurd h3 (by simp)
    · rcases unregister_keeps s pid gid gd hg with ⟨gd2, hl2, hlen2, hst2⟩ |
        ⟨hlen0, hnone⟩
      · apply hbefore
        have h3 : statusOf (unregister_client s pid) gid = some "active" :=
          hafter
        rw [statusOf, hl2, Option.map_some', game_status_congr hlen2 hst2] at h3
        rw [statusOf, hg, Option.map_some']
        exact h3
      · have h3 : statusOf (unregister_client s pid) gid = some "active" :=
          hafter
        rw [statusOf, hnone] at h3
        exact absurd h3 (by simp)
  | join n pc =>
    refine ⟨n, pc, rfl, ?_⟩
    rcases handle_player_join_cases s n pc hWF with ⟨-, hs⟩ |
      ⟨gid0, gdata, color, -, -, hlen, hWFg, hold, hself, hothers⟩
    · exfalso
      apply hbefore
      have h3 : statusOf (handle_player_join s n pc).1 gid = some "active" :=
        hafter
      rw [hs] at h3
      exact h3
    · by_cases hj : gid = gid0
      · subst hj
        have h3 : statusOf (handle_player_join s n pc).1 gid = some "active" :=
          hafter
        rw [statusOf, hself, Option.map_some'] at h3
        injection h3 with h3a
        obtain ⟨hge2, -⟩ := (status_active_iff _).1 h3a
        have hreclen : (joined_game_record gdata s.next_player_id n
            color).players.length = gdata.players.length + 1 := by
          simp [joined_game_record]
        rcases hold with ⟨hg, -⟩ | ⟨hg, -, hempty⟩
        · have hlen1 : gdata.players.length = 1 := by omega
          constructor
          · rw [playersCount, hg, Option.map_some', hlen1]
          · show playersCount (handle_player_join s n pc).1 gid = some 2
            rw [playersCount, hself, Option.map_some', hreclen, hlen1]
        · exfalso
          rw [hempty] at hreclen hge2
          simp at hreclen
          omega
      · exfalso
        apply hbefore
        have h3 : statusOf (handle_player_join s n pc).1 gid = some "active" :=
          hafter
        rw [statusOf, hothers gid hj] at h3
        rw [statusOf]
        exact h3

theorem applyJoins_pres (reqs : List (String × Option String))
    (s : ServerState) (hWF : ServerWF s)
    (hcol : ∀ g ∈ s.games, GameColorsWB g.2)
    (hv : ∀ r ∈ reqs, validPreferred r.2) :
    ServerWF (applyJoins s reqs) ∧
    ∀ g ∈ (applyJoins s reqs).games, GameColorsWB g.2 := by
  induction reqs generalizing s with
  | nil => exact ⟨hWF, hcol⟩
  | cons r rest ih =>
    have hstep := handle_player_join_pres s r.1 r.2 hWF
    exact ih (handle_player_join s r.1 r.2).1 hstep.1
      (hstep.2 hcol (hv r (List.mem_cons_self _ _)))
      (fun r2 hr2 => hv r2 (List.mem_cons_of_mem _ hr2))

/-- C5 counterexample: a single join whose preferred color is the arbitrary
string "green" is assigned verbatim, so the colors in a session are not drawn
from {white, black} as the claim states. -/
theorem join_green_color_counterexample :
    ((handle_player_join serverInit "alice" (some "green")).1.games.map
      (fun g => g.2.players.map (fun kv => kv.2.color))) = [["green"]] ∧
    ¬("green" = "white" ∨ "green" = "black") := by
  constructor
  · decide
  · decide

/-- C5 (amended): across any sequence of joins whose preferred colors are
absent, empty, or legal, every session holds at most two players and its
colors are drawn from {white, black} with no duplicates; a non-empty preferred
color that is free is honored verbatim; the color choice fails only when both
white and black are taken; and a join refused with GAME_FULL leaves the
registry unchanged. -/
theorem player_join_color_invariant
    (reqs : List (String × Option String))
    (hv : ∀ r ∈ reqs, validPreferred r.2) :
    (∀ g ∈ (applyJoins serverInit reqs).games,
      g.2.players.length ≤ 2 ∧
      (g.2.players.map (fun kv => kv.2.color)).Nodup ∧
      GameColorsWB g.2) ∧
    (∀ (existing : List String) (c : String), c ≠ "" → c ∉ existing →
      choose_color existing (some c) = some c) ∧
    (∀ (existing : List String) (pc : Option String),
      choose_color existing pc = none →
      "white" ∈ existing ∧ "black" ∈ existing) ∧
    (∀ (s : ServerState) (n : String) (pc : Option String),
      ServerWF s →
      (handle_player_join s n pc).2 = JoinOutcome.full →
      (handle_player_join s n pc).1 = s) := by
  obtain ⟨hWFr, hcolr⟩ := applyJoins_pres reqs serverInit serverInit_WF
    (by intro g hg; exact absurd hg (List.not_mem_nil g)) hv
  refine ⟨?_, ?_, ?_, ?_⟩
  · intro g hg
    obtain ⟨h2, hnd, -⟩ := hWFr.1 g hg
    exact ⟨h2, hnd, hcolr g hg⟩
  · intro existing c hne hnm
    exact choose_color_pref hne hnm
  · intro existing pc h
    exact choose_color_none h
  · intro s n pc hWF hfull
    rcases handle_player_join_cases s n pc hWF with ⟨-, hs⟩ |
      ⟨gid, gdata, color, hout, -, -, -, -, -, -⟩
    · exact hs
    · rw [hout] at hfull
      exact absurd hfull (by simp)

theorem player_join_color_invariant_witness :
    (("black" : String) ≠ "" ∧ "black" ∉ ["white"]) ∧
    choose_color ["white"] (some "black") = some "black" :=
  ⟨⟨by decide, by decide⟩,
   (player_join_color_invariant []
      (by intro r hr; exact absurd hr (List.not_mem_nil r))).2.1
     ["white"] "black" (by decide) (by decide)⟩

/-- C8: for every trace of registry events from the fresh server and every
game id: a join that takes the game's player count from 1 to 2 makes its
broadcast status "active"; the status can become "active" only through such a
join; and once "active", the status stays "active" over every further trace —
in particular the game is never again reported "waiting". -/
theorem game_status_active_transition (es : List SEvent) (gid : Nat) :
    (∀ (n : String) (pc : Option String),
      playersCount (applyEvents serverInit es) gid = some 1 →
      playersCount (stepServer (applyEvents serverInit es) (SEvent.join n pc))
          gid = some 2 →
      statusOf (stepServer (applyEvents serverInit es) (SEvent.join n pc))
          gid = some "active") ∧
    (∀ e : SEvent,
      statusOf (applyEvents serverInit es) gid ≠ some "active" →
      statusOf (stepServer (applyEvents serverInit es) e) gid =
        some "active" →
      ∃ n pc, e = SEvent.join n pc ∧
        playersCount (applyEvents serverInit es) gid = some 1 ∧
        playersCount (stepServer (applyEvents serverInit es) e) gid =
          some 2) ∧
    (∀ es2 : List SEvent,
      statusOf (applyEvents serverInit es) gid = some "active" →
      statusOf (applyEvents (applyEvents serverInit es) es2) gid =
        some "active") := by
  have hWF : ServerWF (applyEvents serverInit es) :=
    applyEvents_WF es serverInit serverInit_WF
  refine ⟨?_, ?_, ?_⟩
  · intro n pc h1 h2
    exact second_join_activates _ hWF gid n pc h1 h2
  · intro e hb ha
    exact activation_is_second_join _ hWF gid e hb ha
  · intro es2 h
    exact status_active_many_steps es2 _ hWF gid h

theorem game_status_active_transition_witness :
    playersCount (applyEvents serverInit [SEvent.join "alice" none]) 1 =
      some 1 ∧
    playersCount (stepServer (applyEvents serverInit [SEvent.join "alice" none])
      (SEvent.join "bob" none)) 1 = some 2 ∧
    statusOf (stepServer (applyEvents serverInit [SEvent.join "alice" none])
      (SEvent.join "bob" none)) 1 = some "active" :=
  ⟨by decide, by decide,
   (game_status_active_transition [SEvent.join "alice" none] 1).1 "bob" none
     (by decide) (by decide)⟩

end KFC
